import Mathlib

/-!
StockLens: incremental market-data cache and signal rule engine.

Shallow embedding of the core of the StockLens repository:

* `src/database/market_db.py` — the persistent store (`market_data` table,
  `get_latest_timestamp`, `insert_market_data`, `get_market_data`);
* `src/database/data_cache.py` — the freshness and merge engine
  (`needs_update`, `_parse_interval_to_minutes`, `get_download_params`,
  `merge_with_cache`);
* `src/signals/rules.py` — the stateful signal rule engine
  (`make_recommendations`).

Modelling conventions, stated once:

* Timestamps are integers (seconds).  The SQLite layer stores ISO-8601
  strings whose lexicographic order agrees with chronological order, so an
  integer timeline is an order-faithful model; `datetime.now()` is threaded
  through as an explicit `now : Int` argument.
* Python floats (prices, volumes) are modelled as rationals.  All the code
  under study only compares, adds, subtracts and averages them.
* Python `int` is modelled as `Int`; Python `//` (floor division) as
  `Int.fdiv`.
* `pandas.DataFrame`s are lists of fixed-field records, in row order.
* SQLite's `INSERT OR IGNORE` under `UNIQUE(symbol, source, interval,
  timestamp)` is modelled by a per-row conditional append; cursors, row ids
  and `created_at` columns are not observable by any claim and are omitted.
-/

namespace StockLens

/-- One OHLCV bar as returned by `get_market_data` (columns `time, open,
high, low, close, volume` of `market_db.py`).  `open` is a Lean keyword, so
the field is `open_`. -/
structure Bar where
  time : Int
  open_ : Rat
  high : Rat
  low : Rat
  close : Rat
  volume : Rat
deriving DecidableEq, Inhabited

/-- One row of the `market_data` table (schema of `_create_tables` in
`market_db.py`, without the unobservable `id`/`created_at` columns). -/
structure DbRow where
  symbol : String
  source : String
  interval : String
  time : Int
  open_ : Rat
  high : Rat
  low : Rat
  close : Rat
  volume : Rat
deriving DecidableEq, Inhabited

/-- The `WHERE symbol = ? AND source = ? AND interval = ?` filter shared by
every query of `market_db.py`. -/
def matchesKey (symbol source interval : String) (r : DbRow) : Bool :=
  decide (r.symbol = symbol) && decide (r.source = source) &&
    decide (r.interval = interval)

/-- Conversion used by `insert_market_data`: a fetched bar becomes a row of
`market_data` under the given key. -/
def barToRow (symbol source interval : String) (b : Bar) : DbRow :=
  ⟨symbol, source, interval, b.time, b.open_, b.high, b.low, b.close, b.volume⟩

/-- Conversion used by `get_market_data`'s `SELECT timestamp as time, open,
high, low, close, volume`. -/
def rowToBar (r : DbRow) : Bar :=
  ⟨r.time, r.open_, r.high, r.low, r.close, r.volume⟩

/-- Model of `market_db.MarketDatabase.get_latest_timestamp`: `SELECT MAX(timestamp)
... WHERE symbol = ? AND source = ? AND interval = ?`; `none` when no row
matches. -/
def get_latest_timestamp (db : List DbRow) (symbol source interval : String) :
    Option Int :=
  match (db.filter (matchesKey symbol source interval)).map DbRow.time with
  | [] => none
  | t :: ts => some (ts.foldl max t)

/-- Model of `market_db.MarketDatabase.insert_market_data`: row-by-row
`INSERT OR IGNORE`, skipping any bar whose `(symbol, source, interval,
timestamp)` tuple already exists (including tuples inserted earlier in the
same loop).  The Python function also returns an inserted-rows count, which
no claim observes; only the resulting table is modelled. -/
def insert_market_data (db : List DbRow) (df : List Bar)
    (symbol source interval : String) : List DbRow :=
  df.foldl
    (fun d b =>
      if d.any (fun r => matchesKey symbol source interval r && decide (r.time = b.time)) then d
      else d ++ [barToRow symbol source interval b])
    db

/-- Timestamp order on table rows, the sort key of `ORDER BY timestamp
ASC`. -/
def rowLE (a b : DbRow) : Prop := a.time ≤ b.time

instance : DecidableRel rowLE := fun a b => inferInstanceAs (Decidable (a.time ≤ b.time))

instance : IsTotal DbRow rowLE := ⟨fun a b => Int.le_total a.time b.time⟩

instance : IsTrans DbRow rowLE := ⟨fun _ _ _ h h' => le_trans h h'⟩

/-- Sorting of `DbRow`s by timestamp: the `ORDER BY timestamp ASC` of
`get_market_data`.  The `UNIQUE` constraint makes timestamps of one key
unique, so any correct sort yields the same list there. -/
def sortRowsByTime (l : List DbRow) : List DbRow :=
  List.insertionSort rowLE l

/-- Model of `market_db.MarketDatabase.get_market_data`: filter by key and by the
optional `timestamp >= start` / `timestamp <= end` bounds, `ORDER BY
timestamp ASC`, and append `LIMIT limit` only when `limit` is truthy
(Python `if limit:`), which caps the result to the FIRST `limit` rows of
the ascending order. -/
def get_market_data (db : List DbRow) (symbol source interval : String)
    (start_date end_date : Option Int) (limit : Option Nat) : List Bar :=
  let rows := db.filter (fun r =>
    matchesKey symbol source interval r &&
      (match start_date with
       | none => true
       | some s => decide (s ≤ r.time)) &&
      (match end_date with
       | none => true
       | some e => decide (r.time ≤ e)))
  let sorted := (sortRowsByTime rows).map rowToBar
  match limit with
  | none => sorted
  | some l => if l ≠ 0 then sorted.take l else sorted

/-- Model of `data_cache.DataCache.get_cached_data`: consult the latest timestamp
first; when it exists, query the cached frame and return both, mapping an
empty frame back to `(none, none)`. -/
def get_cached_data (db : List DbRow) (symbol source interval : String)
    (limit : Option Nat) : Option (List Bar) × Option Int :=
  match get_latest_timestamp db symbol source interval with
  | none => (none, none)
  | some latest =>
    let cached := get_market_data db symbol source interval none none limit
    if cached = [] then (none, none) else (some cached, some latest)

/-- Python's `str.strip()` on the character list of a string: drop leading
and trailing whitespace. -/
def trimChars (l : List Char) : List Char :=
  ((l.dropWhile Char.isWhitespace).reverse.dropWhile Char.isWhitespace).reverse

/-- Python's `int(...)` on a decimal-digit string: `none` (an exception)
when empty or when any character is not a digit.  (Python also tolerates
signs and surrounding whitespace, which real interval strings never
carry.) -/
def parseNatChars (l : List Char) : Option Nat :=
  if l.isEmpty then none
  else l.foldl
    (fun acc c =>
      match acc with
      | none => none
      | some n => if c.isDigit then some (n * 10 + (c.toNat - 48)) else none)
    (some 0)

/-- Python's `str.endswith(c)` for a one-character suffix. -/
def endsWithChar (l : List Char) (c : Char) : Bool :=
  match l.getLast? with
  | some d => d = c
  | none => false

/-- Model of `data_cache.DataCache._parse_interval_to_minutes`: lower-case and strip
the interval string, then dispatch on the suffix (`m` minutes, `h` hours,
`d` days, `w` weeks, anything else defaults to daily 1440).  Python's
`int(interval[:-1])` raises on a non-numeric prefix; that failure is
modelled as `none`.  The string operations are modelled on the character
list of the string. -/
def _parse_interval_to_minutes (interval : String) : Option Int :=
  let s : List Char := trimChars (interval.data.map Char.toLower)
  if endsWithChar s 'm' then (parseNatChars s.dropLast).map (fun n => (n : Int))
  else if endsWithChar s 'h' then (parseNatChars s.dropLast).map (fun n => (n : Int) * 60)
  else if endsWithChar s 'd' then (parseNatChars s.dropLast).map (fun n => (n : Int) * 1440)
  else if endsWithChar s 'w' then (parseNatChars s.dropLast).map (fun n => (n : Int) * 10080)
  else some 1440

/-- The default of the `max_age_hours` parameter of `needs_update` (used at
its call site inside `get_download_params`). -/
def default_max_age_hours : Int := 24

/-- Model of `data_cache.DataCache.needs_update`: the staleness rule.  `now` models
`datetime.now(latest_timestamp.tzinfo)`; all times are in seconds, so the
expected delay `timedelta(minutes=interval_minutes * 2)` is
`interval_minutes * 2 * 60` and `timedelta(hours=max_age_hours)` is
`max_age_hours * 3600`.  `none` models the `int(...)` parse exception. -/
def needs_update (now : Int) (latest_timestamp : Option Int) (interval : String)
    (max_age_hours : Int) : Option Bool :=
  match latest_timestamp with
  | none => some true
  | some latest =>
    match _parse_interval_to_minutes interval with
    | none => none
    | some interval_minutes =>
      let expected_delay := interval_minutes * 2 * 60
      let age := now - latest
      let max_age := max_age_hours * 3600
      some (decide (age > expected_delay) || decide (age > max_age))

/-- The deduplication step of `merge_with_cache`:
`drop_duplicates(subset=['time'], keep='last')` keeps, for each timestamp,
the last row carrying it, at the position of that last occurrence. -/
def dedupKeepLastByTime : List Bar → List Bar
  | [] => []
  | b :: rest =>
    if rest.any (fun c => c.time = b.time) then dedupKeepLastByTime rest
    else b :: dedupKeepLastByTime rest

/-- Timestamp order on bars, the key of `sort_values('time')`. -/
def barLE (a b : Bar) : Prop := a.time ≤ b.time

/-- Strict timestamp order on bars (used to state that merged series are
strictly ascending). -/
def barLT (a b : Bar) : Prop := a.time < b.time

instance : DecidableRel barLE := fun a b => inferInstanceAs (Decidable (a.time ≤ b.time))

instance : DecidableRel barLT := fun a b => inferInstanceAs (Decidable (a.time < b.time))

instance : IsTotal Bar barLE := ⟨fun a b => Int.le_total a.time b.time⟩

instance : IsTrans Bar barLE := ⟨fun _ _ _ h h' => le_trans h h'⟩

instance : IsAntisymm Bar barLT :=
  ⟨fun _ _ h h' => absurd (lt_trans h h') (lt_irrefl _)⟩

/-- The `sort_values('time')` step of `merge_with_cache` (ascending by
timestamp; it runs after deduplication, so timestamps are unique and any
correct sort yields the same list). -/
def sortBarsByTime (l : List Bar) : List Bar :=
  List.insertionSort barLE l

/-- The trim step of `merge_with_cache`: `if limit and len(merged_df) >
limit: merged_df = merged_df.tail(limit)` — keep the last `limit` rows when
`limit` is truthy and the frame is longer. -/
def trimToLimit (limit : Option Nat) (l : List Bar) : List Bar :=
  match limit with
  | none => l
  | some k => if k ≠ 0 ∧ l.length > k then l.drop (l.length - k) else l

/-- The data transformation of `data_cache.DataCache.merge_with_cache`, with
the cached series as an explicit argument (in the source it is read from
the database; `merge_with_cache_db` below supplies it).  Empty cache: the
new frame is returned verbatim.  Otherwise: concatenate cached-then-new,
deduplicate by time keeping the last (hence new) occurrence, sort ascending
by time, and trim to the last `limit` rows when `limit` is truthy. -/
def mergeSeries (cached new_df : List Bar) (limit : Option Nat) : List Bar :=
  if cached = [] then new_df
  else trimToLimit limit (sortBarsByTime (dedupKeepLastByTime (cached ++ new_df)))

/-- Model of `data_cache.DataCache.merge_with_cache` including its persistence side
effect: read the cached series, merge, and save the new frame through
`insert_market_data`; returns the merged frame and the updated table. -/
def merge_with_cache_db (db : List DbRow) (new_df : List Bar)
    (symbol source interval : String) (limit : Option Nat) :
    List Bar × List DbRow :=
  let cached := (get_cached_data db symbol source interval none).1
  (mergeSeries (cached.getD []) new_df limit,
   insert_market_data db new_df symbol source interval)

/-- Model of `data_cache.DataCache.get_download_params`.  The result mirrors the
Python triple `(use_cache, download_limit, start_date)`; `none` models the
interval-parse exception reachable through `needs_update`.  Python's
`int(missing_count * 1.1)` truncates the binary64 product `missing_count *
1.1`; for every positive `missing_count` below `2 ^ 49` that equals
`⌊missing_count * 11 / 10⌋` (the fractional part of the exact product is a
multiple of 1/10 and the accumulated floating-point error is far smaller
than 1/20, so truncation cannot cross an integer boundary), modelled as
`Int.fdiv (missing_count * 11) 10`.  `requested_limit // 10` is Python
floor division, `Int.fdiv`. -/
def get_download_params (db : List DbRow) (symbol source interval : String)
    (requested_limit : Int) (now : Int) : Option (Bool × Int × Option Int) :=
  match get_cached_data db symbol source interval none with
  | (none, _) => some (false, requested_limit, none)
  | (some cached_df, latest_timestamp) =>
    let cached_count : Int := cached_df.length
    if cached_count ≥ requested_limit then
      match needs_update now latest_timestamp interval default_max_age_hours with
      | none => none
      | some true => some (true, max 100 (Int.fdiv requested_limit 10), latest_timestamp)
      | some false => some (true, 0, latest_timestamp)
    else
      let missing_count := requested_limit - cached_count
      some (true, Int.fdiv (missing_count * 11) 10, none)

/-! ## Signal rule engine (`src/signals/rules.py`) -/

/-- Model of `rules.SignalConfig` (frozen dataclass). -/
structure SignalConfig where
  rsi_low : Rat
  rsi_high : Rat
  vol_ma_window : Nat
  atr_mult : Rat
  enter_threshold : Int
deriving DecidableEq, Inhabited

/-- The default `SignalConfig()` of `rules.py`:
`rsi_low=30.0, rsi_high=70.0, vol_ma_window=20, atr_mult=2.0,
enter_threshold=2`. -/
def defaultSignalConfig : SignalConfig := ⟨30, 70, 20, 2, 2⟩

/-- One input row of `make_recommendations`, carrying the columns of
`MIN_COLS` (`time, close, volume, ema_12, ema_26, sma_50, sma_200, rsi_14,
macd, macd_signal, atr_14`); `_need_cols` holds by construction. -/
structure IndRow where
  time : Int
  close : Rat
  volume : Rat
  ema_12 : Rat
  ema_26 : Rat
  sma_50 : Rat
  sma_200 : Rat
  rsi_14 : Rat
  macd : Rat
  macd_signal : Rat
  atr_14 : Rat
deriving DecidableEq, Inhabited

/-- Timestamp order on indicator rows. -/
def indLE (a b : IndRow) : Prop := a.time ≤ b.time

instance : DecidableRel indLE := fun a b => inferInstanceAs (Decidable (a.time ≤ b.time))

/-- The `df.sort_values("time").reset_index(drop=True)` at the top of
`make_recommendations`. -/
def sortIndRows (df : List IndRow) : List IndRow :=
  List.insertionSort indLE df

/-- Row access after sorting; indices beyond the end never arise in the
theorems (all are guarded by the length). -/
def rowAt (s : List IndRow) (i : Nat) : IndRow := s.getD i default

/-- Model of `rules._cross_up` at row `i`: the pandas `shift(1)` comparison is
`False` on the first row (NaN comparisons are false). -/
def cross_up (f g : IndRow → Rat) (s : List IndRow) (i : Nat) : Bool :=
  if i = 0 then false
  else decide (f (rowAt s (i - 1)) ≤ g (rowAt s (i - 1))) &&
    decide (f (rowAt s i) > g (rowAt s i))

/-- Model of `rules._cross_down` at row `i` (mirror of `_cross_up`). -/
def cross_down (f g : IndRow → Rat) (s : List IndRow) (i : Nat) : Bool :=
  if i = 0 then false
  else decide (f (rowAt s (i - 1)) ≥ g (rowAt s (i - 1))) &&
    decide (f (rowAt s i) < g (rowAt s i))

/-- The series `trend_up = sma_50 > sma_200`. -/
def trend_up (s : List IndRow) (i : Nat) : Bool :=
  decide ((rowAt s i).sma_50 > (rowAt s i).sma_200)

/-- The series `macd_up = macd > macd_signal`. -/
def macd_up (s : List IndRow) (i : Nat) : Bool :=
  decide ((rowAt s i).macd > (rowAt s i).macd_signal)

/-- The series `macd_xup = _cross_up(macd, macd_signal)`. -/
def macd_xup (s : List IndRow) (i : Nat) : Bool :=
  cross_up (fun r => r.macd) (fun r => r.macd_signal) s i

/-- The series `macd_xdn = _cross_down(macd, macd_signal)`. -/
def macd_xdn (s : List IndRow) (i : Nat) : Bool :=
  cross_down (fun r => r.macd) (fun r => r.macd_signal) s i

/-- The series `rsi_pos = rsi_14 > 50`. -/
def rsi_pos (s : List IndRow) (i : Nat) : Bool :=
  decide ((rowAt s i).rsi_14 > 50)

/-- The series `rsi_oversold = rsi_14 < cfg.rsi_low`. -/
def rsi_oversold (cfg : SignalConfig) (s : List IndRow) (i : Nat) : Bool :=
  decide ((rowAt s i).rsi_14 < cfg.rsi_low)

/-- The series `rsi_rebound = _cross_up(rsi_14, rsi_low)` against the constant
threshold series. -/
def rsi_rebound (cfg : SignalConfig) (s : List IndRow) (i : Nat) : Bool :=
  if i = 0 then false
  else decide ((rowAt s (i - 1)).rsi_14 ≤ cfg.rsi_low) &&
    decide ((rowAt s i).rsi_14 > cfg.rsi_low)

/-- Model of `rules._roll_vol_ma` evaluated at row `i`:
`volume.rolling(w, min_periods=max(3, w // 3)).mean()`.  The window at `i`
holds the last `min (i + 1) w` volumes; the mean is defined (non-NaN)
exactly when that count reaches `min_periods`. -/
def vol_ma (cfg : SignalConfig) (s : List IndRow) (i : Nat) : Option Rat :=
  let w := cfg.vol_ma_window
  let minp := max 3 (w / 3)
  let cnt := min (i + 1) w
  if minp ≤ cnt then
    some ((((s.take (i + 1)).drop (i + 1 - cnt)).map IndRow.volume).sum / (cnt : Rat))
  else none

/-- The series `vol_ok = volume > vol_ma` (false where the rolling mean is NaN, since
pandas comparisons with NaN are false). -/
def vol_ok (cfg : SignalConfig) (s : List IndRow) (i : Nat) : Bool :=
  match vol_ma cfg s i with
  | none => false
  | some m => decide ((rowAt s i).volume > m)

/-- The series `s_momo = (trend_up & (macd_up | macd_xup) & rsi_pos).astype(int)`. -/
def s_momo (s : List IndRow) (i : Nat) : Nat :=
  if trend_up s i && (macd_up s i || macd_xup s i) && rsi_pos s i then 1 else 0

/-- The series `price_above_ref = close > ema_12`. -/
def price_above_ref (s : List IndRow) (i : Nat) : Bool :=
  decide ((rowAt s i).close > (rowAt s i).ema_12)

/-- The series `s_mr = (rsi_oversold & (rsi_rebound | price_above_ref)).astype(int)`. -/
def s_mr (cfg : SignalConfig) (s : List IndRow) (i : Nat) : Nat :=
  if rsi_oversold cfg s i && (rsi_rebound cfg s i || price_above_ref s i) then 1 else 0

/-- The series `s_vol = vol_ok.astype(int)`. -/
def s_vol (cfg : SignalConfig) (s : List IndRow) (i : Nat) : Nat :=
  if vol_ok cfg s i then 1 else 0

/-- The series `score = 2*s_momo + 1*s_mr + 1*s_vol` (Python int, hence `Int`). -/
def scoreAt (cfg : SignalConfig) (s : List IndRow) (i : Nat) : Int :=
  2 * (s_momo s i : Int) + (s_mr cfg s i : Int) + (s_vol cfg s i : Int)

/-- The entry series `enter = (s_momo & s_vol) | (s_mr & s_vol) | (score >=
cfg.enter_threshold)`; on 0/1 integers the bitwise `&`/`|` and final
truthiness coincide with boolean conjunction/disjunction. -/
def enterSig (cfg : SignalConfig) (s : List IndRow) (i : Nat) : Bool :=
  (decide (s_momo s i = 1) && decide (s_vol cfg s i = 1)) ||
  (decide (s_mr cfg s i = 1) && decide (s_vol cfg s i = 1)) ||
  decide (scoreAt cfg s i ≥ cfg.enter_threshold)

/-- The exit series `exit_ = macd_xdn | (close < sma_50)`. -/
def exitSig (s : List IndRow) (i : Nat) : Bool :=
  macd_xdn s i || decide ((rowAt s i).close < (rowAt s i).sma_50)

/-- One step of the position loop of `make_recommendations`: carry the
previous position; enter when flat and the entry series fires; exit when in
position and the exit series fires; otherwise hold. -/
def stepPos (prev e x : Bool) : Bool × String :=
  if !prev && e then (true, "enter")
  else if prev && x then (false, "exit")
  else (prev, "hold")

/-- The position/recommendation scan of `make_recommendations` (the `for i
in range(len(out))` loop), starting flat before row 0. -/
def posRec (cfg : SignalConfig) (s : List IndRow) : Nat → Bool × String
  | 0 => stepPos false (enterSig cfg s 0) (exitSig s 0)
  | i + 1 => stepPos (posRec cfg s i).1 (enterSig cfg s (i + 1)) (exitSig s (i + 1))

/-- One output row of `make_recommendations` (the columns it returns). -/
structure SigRow where
  time : Int
  close : Rat
  score : Int
  recommendation : String
  in_position : Bool
  stop_level : Rat
  tp_level : Rat
  sig_momentum_trend : Nat
  sig_mean_reversion : Nat
  sig_volume : Nat
deriving DecidableEq, Inhabited

/-- The output row of `make_recommendations` at index `i` of the sorted
frame, including the ATR stop/target columns. -/
def sigRowAt (df : List IndRow) (cfg : SignalConfig) (i : Nat) : SigRow :=
  let s := sortIndRows df
  let r := rowAt s i
  { time := r.time
    close := r.close
    score := scoreAt cfg s i
    recommendation := (posRec cfg s i).2
    in_position := (posRec cfg s i).1
    stop_level := r.close - cfg.atr_mult * r.atr_14
    tp_level := r.close + cfg.atr_mult * r.atr_14
    sig_momentum_trend := s_momo s i
    sig_mean_reversion := s_mr cfg s i
    sig_volume := s_vol cfg s i }

/-- Model of `rules.make_recommendations` (the Python default `cfg=SignalConfig()`
is `defaultSignalConfig`; the config is passed explicitly here). -/
def make_recommendations (df : List IndRow) (cfg : SignalConfig) : List SigRow :=
  (List.range (sortIndRows df).length).map (sigRowAt df cfg)

/-! ## Specification-side helpers

Used to state (not to compute) what the merge pipeline does: the last row
of a frame carrying a given timestamp, which is the row that
`drop_duplicates(subset=['time'], keep='last')` retains. -/

/-- Whether some row of `l` carries timestamp `t`. -/
def hasTime (l : List Bar) (t : Int) : Bool :=
  l.any (fun c => c.time = t)

/-- The last row of `l` whose timestamp is `t` (`none` if there is none). -/
def lookupLast : List Bar → Int → Option Bar
  | [], _ => none
  | b :: rest, t =>
    match lookupLast rest t with
    | some c => some c
    | none => if b.time = t then some b else none

/-! ## Concrete sample data for witnesses and counterexamples -/

/-- A bar whose four price fields and volume all equal `c`. -/
def mkBar (t : Int) (c : Rat) : Bar := ⟨t, c, c, c, c, c⟩

/-- A `market_data` row for the key `("AAA", "binance", "1d")`. -/
def mkRow (t : Int) : DbRow := ⟨"AAA", "binance", "1d", t, 1, 1, 1, 1, 1⟩

/-- A table holding five bars (timestamps 1..5, stored unordered) for the
key `("AAA", "binance", "1d")`. -/
def db5 : List DbRow := [mkRow 3, mkRow 1, mkRow 5, mkRow 2, mkRow 4]

/-- Scenario D configuration: default thresholds with a volume window of 3
rows, so that the trailing volume average is defined inside a 5-row
series. -/
def cfgD : SignalConfig := ⟨30, 70, 3, 2, 2⟩

/-- One Scenario D indicator row: uptrend (`sma_50 > sma_200`), oscillator
at 60 (never oversold), MACD signal line fixed at 1. -/
def mkInd (t : Int) (m v : Rat) : IndRow :=
  { time := t, close := 20, volume := v, ema_12 := 15, ema_26 := 14,
    sma_50 := 10, sma_200 := 5, rsi_14 := 60, macd := m, macd_signal := 1,
    atr_14 := 1 }

/-- Scenario D series: five rows, MACD crosses up at row 3 (index 3), and
the volume spikes above its trailing average exactly there. -/
def dfD : List IndRow :=
  [mkInd 0 0 10, mkInd 1 0 10, mkInd 2 0 10, mkInd 3 2 40, mkInd 4 2 10]

/-! ## Lemmas about the merge pipeline -/

theorem lookupLast_mem_time {l : List Bar} {t : Int} {b : Bar}
    (h : lookupLast l t = some b) : b ∈ l ∧ b.time = t := by
  induction l with
  | nil => simp [lookupLast] at h
  | cons c rest ih =>
    simp only [lookupLast] at h
    cases h' : lookupLast rest t with
    | some d =>
      rw [h'] at h
      obtain rfl : d = b := by injection h
      exact ⟨List.mem_cons_of_mem _ (ih h').1, (ih h').2⟩
    | none =>
      rw [h'] at h
      by_cases hc : c.time = t
      · rw [if_pos hc] at h
        obtain rfl : c = b := by injection h
        exact ⟨List.mem_cons_self _ _, hc⟩
      · rw [if_neg hc] at h
        cases h

theorem lookupLast_eq_none_iff {l : List Bar} {t : Int} :
    lookupLast l t = none ↔ ∀ b ∈ l, b.time ≠ t := by
  induction l with
  | nil => simp [lookupLast]
  | cons c rest ih =>
    simp only [lookupLast]
    cases h : lookupLast rest t with
    | some d =>
      have hd := lookupLast_mem_time h
      constructor
      · intro hc; exact Option.noConfusion hc
      · intro hall; exact absurd hd.2 (hall d (List.mem_cons_of_mem _ hd.1))
    | none =>
      have hall := ih.mp h
      by_cases hc : c.time = t
      · rw [if_pos hc]
        constructor
        · intro h0; exact Option.noConfusion h0
        · intro hall2; exact absurd hc (hall2 c (List.mem_cons_self _ _))
      · rw [if_neg hc]
        constructor
        · intro _; exact List.forall_mem_cons.mpr ⟨hc, hall⟩
        · intro _; rfl

theorem lookupLast_append (x y : List Bar) (t : Int) :
    lookupLast (x ++ y) t =
      match lookupLast y t with
      | some c => some c
      | none => lookupLast x t := by
  induction x with
  | nil =>
    simp only [List.nil_append]
    cases h : lookupLast y t with
    | some c => rfl
    | none => simp [lookupLast]
  | cons a x ih =>
    have hstep : lookupLast ((a :: x) ++ y) t =
        match lookupLast (x ++ y) t with
        | some c => some c
        | none => if a.time = t then some a else none := rfl
    rw [hstep, ih]
    cases h : lookupLast y t with
    | some c => rfl
    | none => rfl

theorem mem_dedupKeepLastByTime {l : List Bar} {b : Bar} :
    b ∈ dedupKeepLastByTime l ↔ lookupLast l b.time = some b := by
  induction l with
  | nil => simp [dedupKeepLastByTime, lookupLast]
  | cons c rest ih =>
    have hLL : lookupLast (c :: rest) b.time =
        match lookupLast rest b.time with
        | some d => some d
        | none => if c.time = b.time then some c else none := rfl
    by_cases h : (rest.any fun x => decide (x.time = c.time)) = true
    · have hdef : dedupKeepLastByTime (c :: rest) = dedupKeepLastByTime rest := by
        simp only [dedupKeepLastByTime, if_pos h]
      rw [hdef, ih, hLL]
      cases h' : lookupLast rest b.time with
      | some d => rfl
      | none =>
        by_cases hc : c.time = b.time
        · exfalso
          have hex : ∃ x ∈ rest, x.time = c.time := by simpa using h
          obtain ⟨x, hx, hxt⟩ := hex
          exact lookupLast_eq_none_iff.mp h' x hx (by rw [hxt, hc])
        · rw [if_neg hc]
    · have hdef : dedupKeepLastByTime (c :: rest) = c :: dedupKeepLastByTime rest := by
        simp only [dedupKeepLastByTime, if_neg h]
      have hnone : ∀ x ∈ rest, x.time ≠ c.time := by simpa using h
      rw [hdef, hLL]
      simp only [List.mem_cons, ih]
      cases h' : lookupLast rest b.time with
      | some d =>
        have hd := lookupLast_mem_time h'
        constructor
        · rintro (rfl | h2)
          · exact absurd hd.2 (hnone d hd.1)
          · exact h2
        · intro h2
          exact Or.inr h2
      | none =>
        by_cases hc : c.time = b.time
        · rw [if_pos hc]
          constructor
          · rintro (rfl | h0)
            · rfl
            · exact Option.noConfusion h0
          · intro hcb
            have hcbeq : c = b := by injection hcb
            exact Or.inl hcbeq.symm
        · rw [if_neg hc]
          constructor
          · rintro (rfl | h0)
            · exact absurd rfl hc
            · exact Option.noConfusion h0
          · intro h0; exact Option.noConfusion h0

theorem dedup_subset {l : List Bar} {b : Bar} (h : b ∈ dedupKeepLastByTime l) : b ∈ l :=
  (lookupLast_mem_time (mem_dedupKeepLastByTime.mp h)).1

theorem timesNodup_dedup (l : List Bar) :
    List.Pairwise (fun a b : Bar => a.time ≠ b.time) (dedupKeepLastByTime l) := by
  induction l with
  | nil => simp [dedupKeepLastByTime]
  | cons c rest ih =>
    simp only [dedupKeepLastByTime]
    by_cases h : (rest.any fun x => decide (x.time = c.time)) = true
    · rw [if_pos h]; exact ih
    · rw [if_neg h]
      refine List.Pairwise.cons ?_ ih
      intro d hd heq
      have hnone : ∀ x ∈ rest, x.time ≠ c.time := by simpa using h
      exact hnone d (dedup_subset hd) heq.symm

theorem dedup_ne_nil {l : List Bar} (h : l ≠ []) : dedupKeepLastByTime l ≠ [] := by
  induction l with
  | nil => exact absurd rfl h
  | cons c rest ih =>
    simp only [dedupKeepLastByTime]
    by_cases hr : (rest.any fun x => decide (x.time = c.time)) = true
    · rw [if_pos hr]
      apply ih
      intro h0
      rw [h0] at hr
      simp at hr
    · rw [if_neg hr]
      simp

theorem lookupLast_of_timesNodup {l : List Bar} {b : Bar}
    (hn : List.Pairwise (fun a b : Bar => a.time ≠ b.time) l) (hb : b ∈ l) :
    lookupLast l b.time = some b := by
  induction l with
  | nil => cases hb
  | cons c rest ih =>
    have hpc := List.pairwise_cons.mp hn
    rcases List.mem_cons.mp hb with rfl | hbr
    · have hnone : lookupLast rest b.time = none := by
        rw [lookupLast_eq_none_iff]
        intro d hd hdt
        exact hpc.1 d hd hdt.symm
      simp [lookupLast, hnone]
    · have := ih hpc.2 hbr
      simp [lookupLast, this]

theorem mem_sortBars {l : List Bar} {b : Bar} : b ∈ sortBarsByTime l ↔ b ∈ l :=
  List.mem_insertionSort barLE

theorem mem_sortDedup {l : List Bar} {b : Bar} :
    b ∈ sortBarsByTime (dedupKeepLastByTime l) ↔ lookupLast l b.time = some b :=
  mem_sortBars.trans mem_dedupKeepLastByTime

theorem pairwise_lt_sortDedup (l : List Bar) :
    List.Pairwise barLT (sortBarsByTime (dedupKeepLastByTime l)) := by
  have hs : List.Pairwise barLE (sortBarsByTime (dedupKeepLastByTime l)) :=
    List.sorted_insertionSort barLE (dedupKeepLastByTime l)
  have hperm := List.perm_insertionSort barLE (dedupKeepLastByTime l)
  have hne : List.Pairwise (fun a b : Bar => a.time ≠ b.time)
      (sortBarsByTime (dedupKeepLastByTime l)) :=
    (List.Perm.pairwise_iff (fun {_ _} h => Ne.symm h) hperm).mpr (timesNodup_dedup l)
  exact hs.imp₂ (fun _ _ hle hne => lt_of_le_of_ne hle hne) hne

theorem nodup_of_pairwise_lt {l : List Bar} (h : List.Pairwise barLT l) : l.Nodup :=
  h.imp fun hlt heq => absurd (heq ▸ hlt) (lt_irrefl _)

theorem eq_of_pairwise_lt_of_mem_iff {l₁ l₂ : List Bar} (h₁ : List.Pairwise barLT l₁)
    (h₂ : List.Pairwise barLT l₂) (hm : ∀ b, b ∈ l₁ ↔ b ∈ l₂) : l₁ = l₂ :=
  List.eq_of_perm_of_sorted
    ((List.perm_ext_iff_of_nodup (nodup_of_pairwise_lt h₁) (nodup_of_pairwise_lt h₂)).mpr hm)
    h₁ h₂

theorem headI_mem_of_ne_nil {l : List Bar} (h : l ≠ []) : l.headI ∈ l := by
  cases l with
  | nil => exact absurd rfl h
  | cons a l' => exact List.mem_cons_self _ _

theorem headI_time_le_of_pairwise_lt {l : List Bar} (h : List.Pairwise barLT l) {b : Bar}
    (hb : b ∈ l) : l.headI.time ≤ b.time := by
  cases l with
  | nil => cases hb
  | cons m l' =>
    rcases List.mem_cons.mp hb with rfl | hb'
    · exact le_refl _
    · exact le_of_lt ((List.pairwise_cons.mp h).1 b hb')

theorem sorted_split_at (τ : Int) {l : List Bar} (h : List.Pairwise barLT l) :
    l = l.filter (fun b => decide (b.time < τ)) ++ l.filter (fun b => decide (τ ≤ b.time)) := by
  induction l with
  | nil => rfl
  | cons c rest ih =>
    have hc := List.pairwise_cons.mp h
    by_cases hcτ : c.time < τ
    · have h2 : ¬ (τ ≤ c.time) := not_le.mpr hcτ
      simp only [List.filter_cons, hcτ, h2, decide_True, decide_False, if_true, if_false]
      rw [List.cons_append]
      exact congrArg _ (ih hc.2)
    · have hcge : τ ≤ c.time := not_lt.mp hcτ
      have hall : ∀ d ∈ rest, τ ≤ d.time := fun d hd =>
        le_of_lt (lt_of_le_of_lt hcge (hc.1 d hd))
      have hf1 : rest.filter (fun b => decide (b.time < τ)) = [] := by
        rw [List.filter_eq_nil_iff]
        intro a ha
        simp [not_lt.mpr (hall a ha)]
      have hf2 : rest.filter (fun b => decide (τ ≤ b.time)) = rest := by
        rw [List.filter_eq_self]
        intro a ha
        simp [hall a ha]
      simp [List.filter_cons, hcτ, hcge, hf1, hf2]

theorem lookupLast_sortDedup_append (C A : List Bar) (t : Int) :
    lookupLast (sortBarsByTime (dedupKeepLastByTime (C ++ A)) ++ A) t
      = lookupLast (C ++ A) t := by
  have memS : ∀ b : Bar, b ∈ sortBarsByTime (dedupKeepLastByTime (C ++ A)) ↔
      lookupLast (C ++ A) b.time = some b := fun b => mem_sortDedup
  have hnodupS : List.Pairwise (fun a b : Bar => a.time ≠ b.time)
      (sortBarsByTime (dedupKeepLastByTime (C ++ A))) :=
    (pairwise_lt_sortDedup _).imp fun h => ne_of_lt h
  rw [lookupLast_append, lookupLast_append]
  cases hA : lookupLast A t with
  | some c => rfl
  | none =>
    cases hSt : lookupLast (sortBarsByTime (dedupKeepLastByTime (C ++ A))) t with
    | some b =>
      have hb := lookupLast_mem_time hSt
      have hCA : lookupLast (C ++ A) b.time = some b := (memS b).mp hb.1
      rw [hb.2, lookupLast_append, hA] at hCA
      exact hCA.symm
    | none =>
      cases hCt : lookupLast C t with
      | none => rfl
      | some c =>
        have hCAc : lookupLast (C ++ A) t = some c := by
          rw [lookupLast_append, hA]; exact hCt
        have hct : c.time = t := (lookupLast_mem_time hCAc).2
        have hcS : c ∈ sortBarsByTime (dedupKeepLastByTime (C ++ A)) :=
          (memS c).mpr (by rw [hct]; exact hCAc)
        have hlk := lookupLast_of_timesNodup hnodupS hcS
        rw [hct, hSt] at hlk
        cases hlk

theorem sortDedup_absorb (C A : List Bar) :
    sortBarsByTime (dedupKeepLastByTime (sortBarsByTime (dedupKeepLastByTime (C ++ A)) ++ A))
      = sortBarsByTime (dedupKeepLastByTime (C ++ A)) := by
  apply eq_of_pairwise_lt_of_mem_iff (pairwise_lt_sortDedup _) (pairwise_lt_sortDedup _)
  intro b
  rw [mem_sortDedup, mem_sortDedup, lookupLast_sortDedup_append]

theorem trim_sortDedup_restore (C A : List Bar) (k : Nat) (hk : k ≠ 0)
    (hlen : (sortBarsByTime (dedupKeepLastByTime (C ++ A))).length > k) :
    trimToLimit (some k) (sortBarsByTime (dedupKeepLastByTime
        ((sortBarsByTime (dedupKeepLastByTime (C ++ A))).drop
          ((sortBarsByTime (dedupKeepLastByTime (C ++ A))).length - k) ++ A)))
      = (sortBarsByTime (dedupKeepLastByTime (C ++ A))).drop
          ((sortBarsByTime (dedupKeepLastByTime (C ++ A))).length - k) := by
  set S := sortBarsByTime (dedupKeepLastByTime (C ++ A)) with hSdef
  set M := S.drop (S.length - k) with hMdef
  have pltS : List.Pairwise barLT S := pairwise_lt_sortDedup (C ++ A)
  have memS : ∀ b : Bar, b ∈ S ↔ lookupLast (C ++ A) b.time = some b :=
    fun b => mem_sortDedup
  have hkS : k ≤ S.length := le_of_lt hlen
  have hlenM : M.length = k := by
    rw [hMdef, List.length_drop]
    omega
  have hMne : M ≠ [] := by
    intro h0
    rw [h0, List.length_nil] at hlenM
    exact hk hlenM.symm
  have pltM : List.Pairwise barLT M :=
    List.Pairwise.sublist (List.drop_sublist _ _) pltS
  have hMsubS : ∀ b ∈ M, b ∈ S := fun b hb => (List.drop_sublist _ _).subset hb
  have hheadM : M.headI ∈ M := headI_mem_of_ne_nil hMne
  have hτle : ∀ b ∈ M, M.headI.time ≤ b.time := fun b hb =>
    headI_time_le_of_pairwise_lt pltM hb
  have hsplitS : S = S.take (S.length - k) ++ M := (List.take_append_drop _ _).symm
  have htakelt : ∀ a ∈ S.take (S.length - k), a.time < M.headI.time := by
    intro a ha
    have hpw : List.Pairwise barLT (S.take (S.length - k) ++ M) := by
      rw [← hsplitS]; exact pltS
    exact (List.pairwise_append.mp hpw).2.2 a ha M.headI hheadM
  set D := sortBarsByTime (dedupKeepLastByTime (M ++ A)) with hDdef
  have pltD : List.Pairwise barLT D := pairwise_lt_sortDedup (M ++ A)
  have memD : ∀ b : Bar, b ∈ D ↔ lookupLast (M ++ A) b.time = some b :=
    fun b => mem_sortDedup
  have hnodupMt : List.Pairwise (fun a b : Bar => a.time ≠ b.time) M :=
    pltM.imp fun h => ne_of_lt h
  have hF5 : ∀ b : Bar, (b ∈ D ∧ M.headI.time ≤ b.time) ↔ b ∈ M := by
    intro b
    constructor
    · rintro ⟨hbD, hbτ⟩
      have hlk := (memD b).mp hbD
      rw [lookupLast_append] at hlk
      cases hA : lookupLast A b.time with
      | none =>
        rw [hA] at hlk
        have hlkM : lookupLast M b.time = some b := hlk
        exact (lookupLast_mem_time hlkM).1
      | some c =>
        rw [hA] at hlk
        have hcb : c = b := by
          have hlk2 : some c = some b := hlk
          injection hlk2
        subst hcb
        have hCA : lookupLast (C ++ A) c.time = some c := by
          rw [lookupLast_append, hA]
        have hbS : c ∈ S := (memS c).mpr hCA
        have hbsplit : c ∈ S.take (S.length - k) ++ M := by
          rw [← hsplitS]; exact hbS
        rcases List.mem_append.mp hbsplit with h1 | h2
        · exact absurd hbτ (not_le.mpr (htakelt c h1))
        · exact h2
    · intro hbM
      refine ⟨?_, hτle b hbM⟩
      rw [memD b, lookupLast_append]
      cases hA : lookupLast A b.time with
      | none =>
        exact lookupLast_of_timesNodup hnodupMt hbM
      | some c =>
        have hbS : b ∈ S := hMsubS b hbM
        have hCA : lookupLast (C ++ A) b.time = some b := (memS b).mp hbS
        rw [lookupLast_append, hA] at hCA
        exact hCA
  set G := D.filter (fun b => decide (b.time < M.headI.time)) with hGdef
  have hfltM : D.filter (fun b => decide (M.headI.time ≤ b.time)) = M := by
    apply eq_of_pairwise_lt_of_mem_iff
      (List.Pairwise.sublist (List.filter_sublist _) pltD) pltM
    intro b
    rw [List.mem_filter]
    constructor
    · rintro ⟨h1, h2⟩
      exact (hF5 b).mp ⟨h1, of_decide_eq_true h2⟩
    · intro hbM
      exact ⟨((hF5 b).mpr hbM).1, decide_eq_true (hτle b hbM)⟩
  have hDsplit : D = G ++ M := by
    conv_lhs => rw [sorted_split_at M.headI.time pltD]
    rw [hfltM, hGdef]
  have hlenD : D.length = G.length + k := by
    conv_lhs => rw [hDsplit]
    rw [List.length_append, hlenM]
  show trimToLimit (some k) D = M
  by_cases hGnil : G = []
  · have hDM : D = M := by rw [hDsplit, hGnil, List.nil_append]
    have hnotlt : ¬ (D.length > k) := by
      rw [hDM, hlenM]
      exact lt_irrefl k
    simp only [trimToLimit]
    rw [if_neg (by intro hcon; exact hnotlt hcon.2), hDM]
  · have hGpos : 0 < G.length := List.length_pos.mpr hGnil
    have hDk : D.length > k := by omega
    simp only [trimToLimit]
    rw [if_pos ⟨hk, hDk⟩]
    have harith : D.length - k = G.length := by omega
    rw [harith, hDsplit, List.drop_left]

theorem trimToLimit_core (C A : List Bar) (lim : Option Nat) :
    trimToLimit lim (sortBarsByTime (dedupKeepLastByTime
        (trimToLimit lim (sortBarsByTime (dedupKeepLastByTime (C ++ A))) ++ A)))
      = trimToLimit lim (sortBarsByTime (dedupKeepLastByTime (C ++ A))) := by
  cases lim with
  | none => simpa [trimToLimit] using sortDedup_absorb C A
  | some k =>
    by_cases hg : k ≠ 0 ∧ (sortBarsByTime (dedupKeepLastByTime (C ++ A))).length > k
    · have hTS : trimToLimit (some k) (sortBarsByTime (dedupKeepLastByTime (C ++ A)))
          = (sortBarsByTime (dedupKeepLastByTime (C ++ A))).drop
              ((sortBarsByTime (dedupKeepLastByTime (C ++ A))).length - k) := by
        simp only [trimToLimit]
        rw [if_pos hg]
      rw [hTS]
      exact trim_sortDedup_restore C A k hg.1 hg.2
    · have hTS : trimToLimit (some k) (sortBarsByTime (dedupKeepLastByTime (C ++ A)))
          = sortBarsByTime (dedupKeepLastByTime (C ++ A)) := by
        simp only [trimToLimit]
        rw [if_neg hg]
      rw [hTS, sortDedup_absorb C A, hTS]

theorem mergeSeries_nonempty {C A : List Bar} (lim : Option Nat) (hC : C ≠ []) :
    mergeSeries C A lim ≠ [] := by
  have hCA : C ++ A ≠ [] := fun h => hC (List.append_eq_nil.mp h).1
  have hdne : dedupKeepLastByTime (C ++ A) ≠ [] := dedup_ne_nil hCA
  have hsne : sortBarsByTime (dedupKeepLastByTime (C ++ A)) ≠ [] := by
    intro h0
    have hlen : (sortBarsByTime (dedupKeepLastByTime (C ++ A))).length
        = (dedupKeepLastByTime (C ++ A)).length :=
      (List.perm_insertionSort barLE (dedupKeepLastByTime (C ++ A))).length_eq
    rw [h0] at hlen
    exact hdne (List.length_eq_zero.mp hlen.symm)
  rw [mergeSeries, if_neg hC]
  cases lim with
  | none => simpa [trimToLimit] using hsne
  | some k =>
    by_cases hg : k ≠ 0 ∧ (sortBarsByTime (dedupKeepLastByTime (C ++ A))).length > k
    · simp only [trimToLimit]
      rw [if_pos hg]
      have hpos : 0 < ((sortBarsByTime (dedupKeepLastByTime (C ++ A))).drop
          ((sortBarsByTime (dedupKeepLastByTime (C ++ A))).length - k)).length := by
        rw [List.length_drop]
        omega
      exact List.length_pos.mp hpos
    · simp only [trimToLimit]
      rw [if_neg hg]
      exact hsne

theorem trimToLimit_sublist (lim : Option Nat) (l : List Bar) :
    List.Sublist (trimToLimit lim l) l := by
  cases lim with
  | none => exact List.Sublist.refl l
  | some k =>
    simp only [trimToLimit]
    by_cases hg : k ≠ 0 ∧ l.length > k
    · rw [if_pos hg]; exact List.drop_sublist _ _
    · rw [if_neg hg]

theorem lookupLast_append_of_hasTime {A : List Bar} {t : Int} (h : hasTime A t = true)
    (C : List Bar) : lookupLast (C ++ A) t = lookupLast A t := by
  have hex : ∃ b ∈ A, b.time = t := by simpa [hasTime] using h
  rw [lookupLast_append]
  cases hA : lookupLast A t with
  | some c => rfl
  | none =>
    obtain ⟨b, hb, hbt⟩ := hex
    exact absurd hbt (lookupLast_eq_none_iff.mp hA b hb)

/-- C9 counterexample: with an empty cached series the merge returns the
fetched frame verbatim, so re-merging the same (unsorted) frame does change
the result — the claim fails as stated for `cached = []`. -/
theorem mergeSeries_idempotent_counterexample :
    mergeSeries (mergeSeries [] [mkBar 2 1, mkBar 1 1] none) [mkBar 2 1, mkBar 1 1] none
      ≠ mergeSeries [] [mkBar 2 1, mkBar 1 1] none := by decide

/-- C9 (amended): merging the same newly fetched series a second time is
idempotent whenever the cached series is non-empty: for every non-empty
cached `C`, fetched `A` and optional `limit`,
`merge(merge(C, A), A) = merge(C, A)` as the returned series. -/
theorem mergeSeries_idempotent_of_cached_nonempty (C A : List Bar) (lim : Option Nat)
    (hC : C ≠ []) :
    mergeSeries (mergeSeries C A lim) A lim = mergeSeries C A lim := by
  have hMeq : mergeSeries C A lim
      = trimToLimit lim (sortBarsByTime (dedupKeepLastByTime (C ++ A))) := by
    simp only [mergeSeries, if_neg hC]
  have hM : mergeSeries C A lim ≠ [] := mergeSeries_nonempty lim hC
  rw [hMeq] at hM
  rw [hMeq]
  simp only [mergeSeries, if_neg hM]
  exact trimToLimit_core C A lim

/-- C9 witness: a concrete non-empty cached series (with an overlapping,
restated timestamp and a limit) for which re-merging is idempotent. -/
theorem mergeSeries_idempotent_witness :
    ([mkBar 1 5] : List Bar) ≠ [] ∧
      mergeSeries (mergeSeries [mkBar 1 5] [mkBar 2 7, mkBar 1 9] (some 2))
          [mkBar 2 7, mkBar 1 9] (some 2)
        = mergeSeries [mkBar 1 5] [mkBar 2 7, mkBar 1 9] (some 2) :=
  ⟨by decide,
   mergeSeries_idempotent_of_cached_nonempty [mkBar 1 5] [mkBar 2 7, mkBar 1 9] (some 2)
     (by decide)⟩

/-- C4: for every non-empty cached series and every fetched series, the
merge returns the concatenation deduplicated by timestamp with the newly
fetched value winning on a conflict, sorted in strictly ascending timestamp
order; with no (or a non-binding) limit the result holds exactly the last
occurrence of every timestamp of `cached ++ new`; with a truthy limit `k`
and more than `k` merged rows the result is the unlimited merge with its
head dropped, leaving exactly `k` rows; and every row the trim drops is
strictly older than every row it keeps. -/
theorem mergeSeries_spec (C A : List Bar) (lim : Option Nat) (hC : C ≠ []) :
    List.Pairwise barLT (mergeSeries C A lim)
    ∧ (∀ b ∈ mergeSeries C A lim, lookupLast (C ++ A) b.time = some b)
    ∧ (∀ t, hasTime A t = true → lookupLast (C ++ A) t = lookupLast A t)
    ∧ (lim = none → ∀ b, b ∈ mergeSeries C A lim ↔ lookupLast (C ++ A) b.time = some b)
    ∧ (∀ k, lim = some k → k ≠ 0 → (mergeSeries C A none).length > k →
        mergeSeries C A lim
            = (mergeSeries C A none).drop ((mergeSeries C A none).length - k)
          ∧ (mergeSeries C A lim).length = k)
    ∧ (∀ k, lim = some k → ¬ (k ≠ 0 ∧ (mergeSeries C A none).length > k) →
        mergeSeries C A lim = mergeSeries C A none)
    ∧ (∀ b c : Bar, b ∈ mergeSeries C A none → b ∉ mergeSeries C A lim →
        c ∈ mergeSeries C A lim → b.time < c.time) := by
  have hMeq : mergeSeries C A lim
      = trimToLimit lim (sortBarsByTime (dedupKeepLastByTime (C ++ A))) := by
    simp only [mergeSeries, if_neg hC]
  have hNeq : mergeSeries C A none = sortBarsByTime (dedupKeepLastByTime (C ++ A)) := by
    simp only [mergeSeries, if_neg hC, trimToLimit]
  have pltS := pairwise_lt_sortDedup (C ++ A)
  have hsub : List.Sublist (mergeSeries C A lim)
      (sortBarsByTime (dedupKeepLastByTime (C ++ A))) := by
    rw [hMeq]; exact trimToLimit_sublist _ _
  refine ⟨?_, ?_, ?_, ?_, ?_, ?_, ?_⟩
  · exact List.Pairwise.sublist hsub pltS
  · intro b hb
    exact mem_sortDedup.mp (hsub.subset hb)
  · intro t ht
    exact lookupLast_append_of_hasTime ht C
  · rintro rfl b
    rw [hNeq, mem_sortDedup]
  · rintro k rfl hk hlen
    rw [hNeq] at hlen
    constructor
    · rw [hMeq, hNeq]
      simp only [trimToLimit]
      rw [if_pos ⟨hk, hlen⟩]
    · rw [hMeq]
      simp only [trimToLimit]
      rw [if_pos ⟨hk, hlen⟩, List.length_drop]
      omega
  · rintro k rfl hng
    rw [hNeq] at hng ⊢
    rw [hMeq]
    simp only [trimToLimit]
    rw [if_neg hng]
  · intro b c hbN hbnot hcM
    rw [hNeq] at hbN
    rw [hMeq] at hbnot hcM
    cases lim with
    | none =>
      exact absurd hbN (by simpa [trimToLimit] using hbnot)
    | some k =>
      by_cases hg : k ≠ 0 ∧ (sortBarsByTime (dedupKeepLastByTime (C ++ A))).length > k
      · simp only [trimToLimit] at hbnot hcM
        rw [if_pos hg] at hbnot hcM
        have hbsplit : b ∈ (sortBarsByTime (dedupKeepLastByTime (C ++ A))).take
            ((sortBarsByTime (dedupKeepLastByTime (C ++ A))).length - k)
            ++ (sortBarsByTime (dedupKeepLastByTime (C ++ A))).drop
            ((sortBarsByTime (dedupKeepLastByTime (C ++ A))).length - k) := by
          rw [List.take_append_drop]
          exact hbN
        have hpw : List.Pairwise barLT
            ((sortBarsByTime (dedupKeepLastByTime (C ++ A))).take
              ((sortBarsByTime (dedupKeepLastByTime (C ++ A))).length - k)
            ++ (sortBarsByTime (dedupKeepLastByTime (C ++ A))).drop
              ((sortBarsByTime (dedupKeepLastByTime (C ++ A))).length - k)) := by
          rw [List.take_append_drop]
          exact pltS
        rcases List.mem_append.mp hbsplit with h1 | h2
        · exact (List.pairwise_append.mp hpw).2.2 b h1 c hcM
        · exact absurd h2 hbnot
      · simp only [trimToLimit] at hbnot
        rw [if_neg hg] at hbnot
        exact absurd hbN hbnot

/-- C4 witness: a concrete merge of one cached bar with two fetched bars
(one of them restating the cached timestamp) under a binding limit. -/
theorem mergeSeries_spec_witness :
    List.Pairwise barLT (mergeSeries [mkBar 1 5] [mkBar 2 7, mkBar 1 9] (some 1))
    ∧ ∀ b ∈ mergeSeries [mkBar 1 5] [mkBar 2 7, mkBar 1 9] (some 1),
        lookupLast ([mkBar 1 5] ++ [mkBar 2 7, mkBar 1 9]) b.time = some b :=
  ⟨(mergeSeries_spec [mkBar 1 5] [mkBar 2 7, mkBar 1 9] (some 1) (by decide)).1,
   (mergeSeries_spec [mkBar 1 5] [mkBar 2 7, mkBar 1 9] (some 1) (by decide)).2.1⟩

/-! ## Download-sizing and staleness theorems -/

theorem fdiv_mul_eleven_eq_floor (m : Int) :
    Int.fdiv (m * 11) 10 = Int.floor ((m : Rat) * (11 / 10)) := by
  rw [Int.fdiv_eq_ediv _ (by norm_num)]
  rw [show (m : Rat) * (11 / 10) = ((m * 11 : Int) : Rat) / ((10 : Nat) : Rat) by
    push_cast; ring]
  rw [Rat.floor_intCast_div_natCast]
  norm_num

/-- C8: the download decision never sizes a negative fetch (for any
nonnegative requested count — the spec's two sub-claims are jointly
consistent only on nonnegative counts), and with no stored bars for the key
it returns exactly `(useCache := false, fetchCount := requestedCount,
anchor := none)`. -/
theorem get_download_params_bounds (db : List DbRow) (sym src itv : String)
    (req now : Int) (hreq : 0 ≤ req) :
    (∀ u f a, get_download_params db sym src itv req now = some (u, f, a) → 0 ≤ f)
    ∧ ((∀ r ∈ db, matchesKey sym src itv r = false) →
        get_download_params db sym src itv req now = some (false, req, none)) := by
  constructor
  · intro u f a h
    rcases hcd : get_cached_data db sym src itv none with ⟨co, lo⟩
    cases co with
    | none =>
      simp only [get_download_params, hcd, Option.some.injEq, Prod.mk.injEq] at h
      obtain ⟨-, hf, -⟩ := h
      omega
    | some df =>
      simp only [get_download_params, hcd] at h
      by_cases hge : (df.length : Int) ≥ req
      · rw [if_pos hge] at h
        cases hnu : needs_update now lo itv default_max_age_hours with
        | none => rw [hnu] at h; exact Option.noConfusion h
        | some stale =>
          rw [hnu] at h
          cases stale with
          | true =>
            simp only [Option.some.injEq, Prod.mk.injEq] at h
            obtain ⟨-, hf, -⟩ := h
            rw [← hf]
            exact le_trans (by norm_num) (le_max_left 100 _)
          | false =>
            simp only [Option.some.injEq, Prod.mk.injEq] at h
            obtain ⟨-, hf, -⟩ := h
            rw [← hf]
      · rw [if_neg hge] at h
        simp only [Option.some.injEq, Prod.mk.injEq] at h
        obtain ⟨-, hf, -⟩ := h
        rw [← hf]
        refine Int.fdiv_nonneg ?_ (by norm_num)
        have hlt : (df.length : Int) < req := lt_of_not_ge hge
        nlinarith
  · intro hEmpty
    have hfilter : db.filter (matchesKey sym src itv) = [] := by
      rw [List.filter_eq_nil_iff]
      intro r hr
      rw [hEmpty r hr]
      exact Bool.false_ne_true
    have hlatest : get_latest_timestamp db sym src itv = none := by
      simp [get_latest_timestamp, hfilter]
    have hcached : get_cached_data db sym src itv none = (none, none) := by
      simp [get_cached_data, hlatest]
    simp [get_download_params, hcached]

/-- C8 witness: Scenario A — empty store, request 500 bars. -/
theorem get_download_params_bounds_witness :
    get_download_params [] "BTCUSDT" "binance" "1d" 500 0 = some (false, 500, none) :=
  (get_download_params_bounds [] "BTCUSDT" "binance" "1d" 500 0 (by norm_num)).2
    (fun r hr => absurd hr (List.not_mem_nil r))

/-- C2 counterexample: five cached bars, ten requested.  The claimed
`ceil((10 - 5) * 1.1) = 6` is not what the code returns: `int(5 * 1.1)`
truncates to 5. -/
theorem get_download_params_ceil_counterexample :
    get_download_params db5 "AAA" "binance" "1d" 10 0 = some (true, 5, none)
    ∧ Int.ceil ((((10 : Rat) - 5)) * (11 / 10)) = 6
    ∧ get_download_params db5 "AAA" "binance" "1d" 10 0 ≠ some (true, 6, none) := by
  refine ⟨by decide, ?_, by decide⟩
  rw [show (((10 : Rat) - 5)) * (11 / 10) = 11 / 2 by norm_num]
  rw [Int.ceil_eq_iff]
  norm_num

/-- C2 (amended): for every key whose cached bar count is positive but less
than the requested count, `get_download_params` returns `useCache = true`,
`anchor = none`, and `fetchCount = ⌊(requestedCount - cachedCount) * 1.1⌋`
— the shortfall plus 10 percent, truncated (floored), not ceiled. -/
theorem get_download_params_insufficient (db : List DbRow) (sym src itv : String)
    (req now : Int) (df : List Bar) (latest : Int)
    (hc : get_cached_data db sym src itv none = (some df, some latest))
    (hpos : 0 < df.length) (hlt : (df.length : Int) < req) :
    get_download_params db sym src itv req now
        = some (true, Int.fdiv ((req - df.length) * 11) 10, none)
    ∧ Int.fdiv ((req - (df.length : Int)) * 11) 10
        = Int.floor (((req : Rat) - (df.length : Int)) * (11 / 10)) := by
  constructor
  · simp only [get_download_params, hc]
    rw [if_neg (not_le.mpr hlt)]
  · rw [fdiv_mul_eleven_eq_floor (req - (df.length : Int))]
    norm_num

/-- C2 witness: the amended claim evaluated on the concrete five-bar cache
with ten requested bars (fetch 5 = ⌊5.5⌋). -/
theorem get_download_params_insufficient_witness :
    get_download_params db5 "AAA" "binance" "1d" 10 0
      = some (true, Int.fdiv ((10 - (([mkBar 1 1, mkBar 2 1, mkBar 3 1, mkBar 4 1,
          mkBar 5 1] : List Bar).length : Int)) * 11) 10, none) :=
  (get_download_params_insufficient db5 "AAA" "binance" "1d" 10 0
      [mkBar 1 1, mkBar 2 1, mkBar 3 1, mkBar 4 1, mkBar 5 1] 5
      (by decide) (by decide) (by decide)).1

/-- C5: for every key whose cached bar count is at least the requested
count, `get_download_params` returns `useCache = true` and `anchor =` the
latest cached timestamp, with `fetchCount = 0` when the cache is fresh by
the staleness rule and `fetchCount = max(100, requestedCount / 10)` (floor
division) when it is stale. -/
theorem get_download_params_sufficient (db : List DbRow) (sym src itv : String)
    (req now : Int) (df : List Bar) (latest : Int)
    (hc : get_cached_data db sym src itv none = (some df, some latest))
    (hge : (df.length : Int) ≥ req) :
    (needs_update now (some latest) itv default_max_age_hours = some false →
      get_download_params db sym src itv req now = some (true, 0, some latest))
    ∧ (needs_update now (some latest) itv default_max_age_hours = some true →
      get_download_params db sym src itv req now
        = some (true, max 100 (Int.fdiv req 10), some latest)) := by
  constructor
  · intro hfresh
    simp only [get_download_params, hc]
    rw [if_pos hge, hfresh]
  · intro hstale
    simp only [get_download_params, hc]
    rw [if_pos hge, hstale]

/-- C5 witness: five fresh cached bars, three requested — serve from cache
with no fetch. -/
theorem get_download_params_sufficient_witness :
    get_download_params db5 "AAA" "binance" "1d" 3 10 = some (true, 0, some 5) :=
  (get_download_params_sufficient db5 "AAA" "binance" "1d" 3 10
      [mkBar 1 1, mkBar 2 1, mkBar 3 1, mkBar 4 1, mkBar 5 1] 5
      (by decide) (by decide)).1 (by decide)

/-- C6: the staleness rule.  Given that the interval string parses to `m`
minutes, `needs_update` answers true exactly when `now - latest` (seconds)
exceeds twice the interval duration or exceeds `maxAgeHours` hours; the
suffix table is `m` minutes, `h` sixty, `d` 1440, `w` 10080 minutes, and an
unrecognized suffix defaults to 1440 (daily); the default `max_age_hours`
is 24. -/
theorem needs_update_spec :
    (∀ (now latest maxAge m : Int) (itv : String),
      _parse_interval_to_minutes itv = some m →
        (needs_update now (some latest) itv maxAge = some true
          ↔ (now - latest > 2 * (m * 60) ∨ now - latest > maxAge * 3600)))
    ∧ (∀ (now latest maxAge m : Int) (itv : String),
      _parse_interval_to_minutes itv = some m →
        (needs_update now (some latest) itv maxAge = some false
          ↔ ¬ (now - latest > 2 * (m * 60) ∨ now - latest > maxAge * 3600)))
    ∧ _parse_interval_to_minutes "15m" = some 15
    ∧ _parse_interval_to_minutes "4H" = some 240
    ∧ _parse_interval_to_minutes "3d" = some 4320
    ∧ _parse_interval_to_minutes "2w" = some 20160
    ∧ _parse_interval_to_minutes "foo" = some 1440
    ∧ default_max_age_hours = 24 := by
  refine ⟨?_, ?_, by decide, by decide, by decide, by decide, by decide, rfl⟩
  · intro now latest maxAge m itv hp
    simp only [needs_update, hp, Option.some.injEq, Bool.or_eq_true, decide_eq_true_eq]
    constructor
    · intro h; omega
    · intro h; omega
  · intro now latest maxAge m itv hp
    simp only [needs_update, hp, Option.some.injEq, Bool.or_eq_false_iff,
      decide_eq_false_iff_not]
    constructor
    · intro h; omega
    · intro h; omega

/-- C6 witness: the staleness rule instantiated at a concrete stale daily
series. -/
theorem needs_update_spec_witness :
    needs_update 1000000 (some 0) "1d" 24 = some true
      ↔ ((1000000 : Int) - 0 > 2 * (1440 * 60) ∨ (1000000 : Int) - 0 > 24 * 3600) :=
  needs_update_spec.1 1000000 0 24 1440 "1d" (by decide)

/-! ## Store query evaluation (C1) and empty-cache merge (C10) -/

/-- C1 (code-bug evaluation): the store holds five bars with timestamps
1..5 for the key, yet `get_market_data` with `limit = 2` returns the two
OLDEST bars — `ORDER BY timestamp ASC` followed by `LIMIT` caps the result
to the first rows of the ascending order, not the last (most recent) rows
that the specification (and the cache's own `tail(limit)` trim) intend. -/
theorem get_market_data_limit_returns_oldest :
    get_market_data db5 "AAA" "binance" "1d" none none (some 2)
        = [mkBar 1 1, mkBar 2 1]
    ∧ get_market_data db5 "AAA" "binance" "1d" none none none
        = [mkBar 1 1, mkBar 2 1, mkBar 3 1, mkBar 4 1, mkBar 5 1] := by
  constructor
  · decide
  · decide

theorem mem_insert_of_mem {db : List DbRow} {r : DbRow} (l : List Bar)
    (sym src itv : String) (hr : r ∈ db) :
    r ∈ insert_market_data db l sym src itv := by
  induction l generalizing db with
  | nil => exact hr
  | cons b l ih =>
    have hstep : insert_market_data db (b :: l) sym src itv
        = insert_market_data
            (if db.any (fun r => matchesKey sym src itv r && decide (r.time = b.time)) then db
             else db ++ [barToRow sym src itv b]) l sym src itv := rfl
    rw [hstep]
    apply ih
    by_cases hc : (db.any fun r => matchesKey sym src itv r && decide (r.time = b.time)) = true
    · rw [if_pos hc]; exact hr
    · rw [if_neg hc]; exact List.mem_append_left _ hr

theorem keyTime_present_insert (db : List DbRow) (l : List Bar) (sym src itv : String) :
    ∀ b ∈ l, ∃ r ∈ insert_market_data db l sym src itv,
      matchesKey sym src itv r = true ∧ r.time = b.time := by
  induction l generalizing db with
  | nil => intro b hb; cases hb
  | cons c l ih =>
    intro b hb
    have hstep : insert_market_data db (c :: l) sym src itv
        = insert_market_data
            (if db.any (fun r => matchesKey sym src itv r && decide (r.time = c.time)) then db
             else db ++ [barToRow sym src itv c]) l sym src itv := rfl
    rcases List.mem_cons.mp hb with rfl | hbl
    · by_cases hc : (db.any fun r => matchesKey sym src itv r && decide (r.time = b.time)) = true
      · have hex : ∃ r ∈ db, matchesKey sym src itv r = true ∧ r.time = b.time := by
          simpa [List.any_eq_true] using hc
        obtain ⟨r, hrdb, h1, h2⟩ := hex
        refine ⟨r, ?_, h1, h2⟩
        rw [hstep, if_pos hc]
        exact mem_insert_of_mem l sym src itv hrdb
      · refine ⟨barToRow sym src itv b, ?_, by simp [matchesKey, barToRow], rfl⟩
        rw [hstep, if_neg hc]
        exact mem_insert_of_mem l sym src itv
          (List.mem_append_right _ (List.mem_singleton.mpr rfl))
    · rw [hstep]
      exact ih _ b hbl

/-- C10: when the store holds no cached bars for the key, the merge returns
the newly fetched frame exactly as passed in — not sorted, not
deduplicated, and not trimmed to the limit — while still persisting it:
every fetched bar's `(key, timestamp)` tuple is present in the resulting
table. -/
theorem merge_with_cache_db_no_cache (db : List DbRow) (new_df : List Bar)
    (sym src itv : String) (lim : Option Nat)
    (h : get_latest_timestamp db sym src itv = none) :
    (merge_with_cache_db db new_df sym src itv lim).1 = new_df
    ∧ (merge_with_cache_db db new_df sym src itv lim).2
        = insert_market_data db new_df sym src itv
    ∧ ∀ b ∈ new_df, ∃ r ∈ (merge_with_cache_db db new_df sym src itv lim).2,
        matchesKey sym src itv r = true ∧ r.time = b.time := by
  have hcd : get_cached_data db sym src itv none = (none, none) := by
    simp [get_cached_data, h]
  refine ⟨?_, rfl, ?_⟩
  · simp [merge_with_cache_db, hcd, mergeSeries]
  · intro b hb
    exact keyTime_present_insert db new_df sym src itv b hb

/-- C10 witness: an unsorted, duplicated three-bar fetch for a key with no
cache, with a binding limit of one — returned verbatim. -/
theorem merge_with_cache_db_no_cache_witness :
    (merge_with_cache_db db5 [mkBar 2 1, mkBar 1 1, mkBar 2 1] "BBB" "binance" "1d"
        (some 1)).1
      = [mkBar 2 1, mkBar 1 1, mkBar 2 1] :=
  (merge_with_cache_db_no_cache db5 [mkBar 2 1, mkBar 1 1, mkBar 2 1] "BBB" "binance" "1d"
      (some 1) (by decide)).1

/-! ## Signal rule engine theorems -/

theorem make_recommendations_length (df : List IndRow) (cfg : SignalConfig) :
    (make_recommendations df cfg).length = (sortIndRows df).length := by
  simp [make_recommendations]

theorem make_recommendations_getD (df : List IndRow) (cfg : SignalConfig) (j : Nat)
    (hj : j < (sortIndRows df).length) :
    (make_recommendations df cfg).getD j default = sigRowAt df cfg j := by
  have hj2 : j < ((List.range (sortIndRows df).length).map (sigRowAt df cfg)).length := by
    simpa using hj
  show ((List.range (sortIndRows df).length).map (sigRowAt df cfg)).getD j default = _
  rw [List.getD_eq_getElem _ _ hj2]
  simp

theorem natIte_eq_one_iff {b : Bool} : (if b = true then (1 : Nat) else 0) = 1 ↔ b = true := by
  cases b <;> simp

theorem natIte_zero_or_one {b : Bool} :
    (if b = true then (1 : Nat) else 0) = 0 ∨ (if b = true then (1 : Nat) else 0) = 1 := by
  cases b <;> simp

theorem stepPos_cases (prev e x : Bool) :
    (prev = false → e = true → stepPos prev e x = (true, "enter"))
    ∧ (prev = true → x = true → stepPos prev e x = (false, "exit"))
    ∧ (¬ (prev = false ∧ e = true) → ¬ (prev = true ∧ x = true)
        → stepPos prev e x = (prev, "hold")) := by
  cases prev <;> cases e <;> cases x <;> simp [stepPos]

/-- C7: per output row of the stateful rule engine, the momentum sub-signal
is 1 exactly when the trend is up (`sma_50 > sma_200`), momentum is up or
crossing up (MACD above or crossing its signal line) and the oscillator
(`rsi_14`) exceeds 50; the mean-reversion sub-signal is 1 exactly when the
oscillator is oversold and either rebounds through the low threshold or the
close is above the fast reference (`ema_12`); the volume sub-signal is 1
exactly when volume exceeds its trailing moving average (where that average
is defined); each sub-signal is 0 otherwise; and the composite score is
`2*momentum + meanReversion + volume`. -/
theorem make_recommendations_signals (cfg : SignalConfig) (df : List IndRow) (i : Nat)
    (hi : i < (make_recommendations df cfg).length) :
    (((make_recommendations df cfg).getD i default).sig_momentum_trend = 1
      ↔ ((rowAt (sortIndRows df) i).sma_50 > (rowAt (sortIndRows df) i).sma_200
        ∧ (macd_up (sortIndRows df) i = true ∨ macd_xup (sortIndRows df) i = true)
        ∧ (rowAt (sortIndRows df) i).rsi_14 > 50))
    ∧ (((make_recommendations df cfg).getD i default).sig_momentum_trend = 0
        ∨ ((make_recommendations df cfg).getD i default).sig_momentum_trend = 1)
    ∧ (((make_recommendations df cfg).getD i default).sig_mean_reversion = 1
      ↔ ((rowAt (sortIndRows df) i).rsi_14 < cfg.rsi_low
        ∧ (rsi_rebound cfg (sortIndRows df) i = true
          ∨ (rowAt (sortIndRows df) i).close > (rowAt (sortIndRows df) i).ema_12)))
    ∧ (((make_recommendations df cfg).getD i default).sig_mean_reversion = 0
        ∨ ((make_recommendations df cfg).getD i default).sig_mean_reversion = 1)
    ∧ (((make_recommendations df cfg).getD i default).sig_volume = 1
      ↔ ∃ m, vol_ma cfg (sortIndRows df) i = some m ∧ (rowAt (sortIndRows df) i).volume > m)
    ∧ (((make_recommendations df cfg).getD i default).sig_volume = 0
        ∨ ((make_recommendations df cfg).getD i default).sig_volume = 1)
    ∧ ((make_recommendations df cfg).getD i default).score
        = 2 * (((make_recommendations df cfg).getD i default).sig_momentum_trend : Int)
          + (((make_recommendations df cfg).getD i default).sig_mean_reversion : Int)
          + (((make_recommendations df cfg).getD i default).sig_volume : Int) := by
  have hleni : i < (sortIndRows df).length := by
    rw [← make_recommendations_length df cfg]
    exact hi
  rw [make_recommendations_getD df cfg i hleni]
  refine ⟨?_, ?_, ?_, ?_, ?_, ?_, rfl⟩
  · show s_momo (sortIndRows df) i = 1 ↔ _
    rw [show s_momo (sortIndRows df) i
        = if (trend_up (sortIndRows df) i
            && (macd_up (sortIndRows df) i || macd_xup (sortIndRows df) i)
            && rsi_pos (sortIndRows df) i) = true then 1 else 0 from rfl,
      natIte_eq_one_iff]
    simp [trend_up, rsi_pos, Bool.and_eq_true, Bool.or_eq_true, and_assoc]
  · exact natIte_zero_or_one
  · show s_mr cfg (sortIndRows df) i = 1 ↔ _
    rw [show s_mr cfg (sortIndRows df) i
        = if (rsi_oversold cfg (sortIndRows df) i
            && (rsi_rebound cfg (sortIndRows df) i || price_above_ref (sortIndRows df) i))
              = true then 1 else 0 from rfl,
      natIte_eq_one_iff]
    simp [rsi_oversold, price_above_ref, Bool.and_eq_true, Bool.or_eq_true]
  · exact natIte_zero_or_one
  · show s_vol cfg (sortIndRows df) i = 1 ↔ _
    rw [show s_vol cfg (sortIndRows df) i
        = if vol_ok cfg (sortIndRows df) i = true then 1 else 0 from rfl,
      natIte_eq_one_iff]
    cases hvm : vol_ma cfg (sortIndRows df) i with
    | none => simp [vol_ok, hvm]
    | some m => simp [vol_ok, hvm]
  · exact natIte_zero_or_one

theorem sortIndRows_length (df : List IndRow) : (sortIndRows df).length = df.length :=
  (List.perm_insertionSort indLE df).length_eq

theorem sortIndRows_dfD : sortIndRows dfD = dfD := by
  norm_num [sortIndRows, dfD, mkInd, List.insertionSort, List.orderedInsert, indLE]

theorem hi_dfD : 3 < (make_recommendations dfD cfgD).length := by
  rw [make_recommendations_length, sortIndRows_length]
  norm_num [dfD]

theorem s_momo_dfD_3 : s_momo dfD 3 = 1 := by
  norm_num [s_momo, trend_up, macd_up, macd_xup, cross_up, rsi_pos, rowAt, dfD, mkInd]

theorem s_mr_dfD_3 : s_mr cfgD dfD 3 = 0 := by
  norm_num [s_mr, rsi_oversold, rsi_rebound, price_above_ref, rowAt, dfD, mkInd, cfgD]

theorem s_vol_dfD_3 : s_vol cfgD dfD 3 = 1 := by
  norm_num [s_vol, vol_ok, vol_ma, rowAt, dfD, mkInd, cfgD]

theorem s_momo_dfD_lt3 : s_momo dfD 0 = 0 ∧ s_momo dfD 1 = 0 ∧ s_momo dfD 2 = 0 := by
  refine ⟨?_, ?_, ?_⟩ <;>
    norm_num [s_momo, trend_up, macd_up, macd_xup, cross_up, rsi_pos, rowAt, dfD, mkInd]

theorem s_mr_dfD_lt3 : s_mr cfgD dfD 0 = 0 ∧ s_mr cfgD dfD 1 = 0 ∧ s_mr cfgD dfD 2 = 0 := by
  refine ⟨?_, ?_, ?_⟩ <;>
    norm_num [s_mr, rsi_oversold, rsi_rebound, price_above_ref, rowAt, dfD, mkInd, cfgD]

theorem s_vol_dfD_lt3 : s_vol cfgD dfD 0 = 0 ∧ s_vol cfgD dfD 1 = 0 ∧ s_vol cfgD dfD 2 = 0 := by
  refine ⟨?_, ?_, ?_⟩ <;>
    norm_num [s_vol, vol_ok, vol_ma, rowAt, dfD, mkInd, cfgD]

theorem enterSig_dfD_lt3 :
    enterSig cfgD dfD 0 = false ∧ enterSig cfgD dfD 1 = false ∧ enterSig cfgD dfD 2 = false := by
  have ht : cfgD.enter_threshold = 2 := rfl
  refine ⟨?_, ?_, ?_⟩ <;>
    simp [enterSig, scoreAt, ht, s_momo_dfD_lt3.1, s_momo_dfD_lt3.2.1, s_momo_dfD_lt3.2.2,
      s_mr_dfD_lt3.1, s_mr_dfD_lt3.2.1, s_mr_dfD_lt3.2.2,
      s_vol_dfD_lt3.1, s_vol_dfD_lt3.2.1, s_vol_dfD_lt3.2.2]

theorem enterSig_dfD_3 : enterSig cfgD dfD 3 = true := by
  simp [enterSig, s_momo_dfD_3, s_vol_dfD_3]

theorem posRec_dfD_2 : (posRec cfgD dfD 2).1 = false := by
  have h0 : posRec cfgD dfD 0 = (false, "hold") := by
    simp [posRec, stepPos, enterSig_dfD_lt3.1]
  have h1 : posRec cfgD dfD 1 = (false, "hold") := by
    show stepPos (posRec cfgD dfD 0).1 (enterSig cfgD dfD 1) (exitSig dfD 1) = (false, "hold")
    rw [h0, enterSig_dfD_lt3.2.1]
    simp [stepPos]
  show (stepPos (posRec cfgD dfD 1).1 (enterSig cfgD dfD 2) (exitSig dfD 2)).1 = false
  rw [h1, enterSig_dfD_lt3.2.2]
  simp [stepPos]

/-- C7 witness: Scenario D — five rows, MACD crossing up at row 3 with a
volume spike there and the oscillator never oversold: the momentum and
volume sub-signals are 1, mean-reversion is 0, and the score is
2*1 + 0 + 1 = 3. -/
theorem make_recommendations_signals_witness :
    3 < (make_recommendations dfD cfgD).length
    ∧ ((make_recommendations dfD cfgD).getD 3 default).score
        = 2 * (((make_recommendations dfD cfgD).getD 3 default).sig_momentum_trend : Int)
          + (((make_recommendations dfD cfgD).getD 3 default).sig_mean_reversion : Int)
          + (((make_recommendations dfD cfgD).getD 3 default).sig_volume : Int)
    ∧ ((make_recommendations dfD cfgD).getD 3 default).sig_momentum_trend = 1
    ∧ ((make_recommendations dfD cfgD).getD 3 default).sig_mean_reversion = 0
    ∧ ((make_recommendations dfD cfgD).getD 3 default).sig_volume = 1
    ∧ ((make_recommendations dfD cfgD).getD 3 default).score = 3 := by
  have hlen3 : 3 < (sortIndRows dfD).length := by
    rw [sortIndRows_length]; norm_num [dfD]
  have hgd := make_recommendations_getD dfD cfgD 3 hlen3
  refine ⟨hi_dfD, (make_recommendations_signals cfgD dfD 3 hi_dfD).2.2.2.2.2.2, ?_, ?_, ?_, ?_⟩
  · rw [hgd]; show s_momo (sortIndRows dfD) 3 = 1; rw [sortIndRows_dfD]; exact s_momo_dfD_3
  · rw [hgd]; show s_mr cfgD (sortIndRows dfD) 3 = 0; rw [sortIndRows_dfD]; exact s_mr_dfD_3
  · rw [hgd]; show s_vol cfgD (sortIndRows dfD) 3 = 1; rw [sortIndRows_dfD]; exact s_vol_dfD_3
  · rw [hgd]
    show scoreAt cfgD (sortIndRows dfD) 3 = 3
    rw [sortIndRows_dfD]
    rw [show scoreAt cfgD dfD 3
        = 2 * (s_momo dfD 3 : Int) + (s_mr cfgD dfD 3 : Int) + (s_vol cfgD dfD 3 : Int) from rfl]
    rw [s_momo_dfD_3, s_mr_dfD_3, s_vol_dfD_3]
    norm_num

/-- C3: the position trace of `make_recommendations` is a strict
left-to-right scan starting flat.  With the entry condition ((momentum and
volume) or (mean-reversion and volume) or score at least the enter
threshold — default 2) and the exit condition (bearish MACD cross or close
below `sma_50`), the state entering row `i` is the previous row's resolved
state (flat before row 0): if flat and the entry condition holds the row is
"enter" and the state becomes in-position; else if in position and the exit
condition holds the row is "exit" and the state becomes flat; otherwise the
row is "hold" and the state persists.  The exit condition is consulted only
while already in a position. -/
theorem make_recommendations_scan (cfg : SignalConfig) (df : List IndRow) (i : Nat)
    (hi : i < (make_recommendations df cfg).length) :
    defaultSignalConfig.enter_threshold = 2
    ∧ (enterSig cfg (sortIndRows df) i = true
        ↔ ((s_momo (sortIndRows df) i = 1 ∧ s_vol cfg (sortIndRows df) i = 1)
          ∨ (s_mr cfg (sortIndRows df) i = 1 ∧ s_vol cfg (sortIndRows df) i = 1)
          ∨ scoreAt cfg (sortIndRows df) i ≥ cfg.enter_threshold))
    ∧ (exitSig (sortIndRows df) i = true
        ↔ (macd_xdn (sortIndRows df) i = true
          ∨ (rowAt (sortIndRows df) i).close < (rowAt (sortIndRows df) i).sma_50))
    ∧ ((if i = 0 then false
          else ((make_recommendations df cfg).getD (i - 1) default).in_position) = false →
        enterSig cfg (sortIndRows df) i = true →
        ((make_recommendations df cfg).getD i default).in_position = true
          ∧ ((make_recommendations df cfg).getD i default).recommendation = "enter")
    ∧ ((if i = 0 then false
          else ((make_recommendations df cfg).getD (i - 1) default).in_position) = true →
        exitSig (sortIndRows df) i = true →
        ((make_recommendations df cfg).getD i default).in_position = false
          ∧ ((make_recommendations df cfg).getD i default).recommendation = "exit")
    ∧ (¬ ((if i = 0 then false
            else ((make_recommendations df cfg).getD (i - 1) default).in_position) = false
          ∧ enterSig cfg (sortIndRows df) i = true) →
        ¬ ((if i = 0 then false
            else ((make_recommendations df cfg).getD (i - 1) default).in_position) = true
          ∧ exitSig (sortIndRows df) i = true) →
        ((make_recommendations df cfg).getD i default).in_position
            = (if i = 0 then false
                else ((make_recommendations df cfg).getD (i - 1) default).in_position)
          ∧ ((make_recommendations df cfg).getD i default).recommendation = "hold") := by
  have hleni : i < (sortIndRows df).length := by
    rw [← make_recommendations_length df cfg]
    exact hi
  refine ⟨rfl, ?_, ?_, ?_, ?_, ?_⟩
  · simp [enterSig, Bool.or_eq_true, Bool.and_eq_true, decide_eq_true_eq, or_assoc]
  · simp [exitSig, Bool.or_eq_true, decide_eq_true_eq]
  · intro hprev hE
    rw [make_recommendations_getD df cfg i hleni]
    cases i with
    | zero =>
      have hpr : posRec cfg (sortIndRows df) 0 = (true, "enter") :=
        (stepPos_cases false (enterSig cfg (sortIndRows df) 0) (exitSig (sortIndRows df) 0)).1
          rfl hE
      exact ⟨show (posRec cfg (sortIndRows df) 0).1 = true by rw [hpr],
        show (posRec cfg (sortIndRows df) 0).2 = "enter" by rw [hpr]⟩
    | succ j =>
      rw [if_neg (Nat.succ_ne_zero j), Nat.add_sub_cancel] at hprev
      rw [make_recommendations_getD df cfg j (by omega)] at hprev
      have hpr : posRec cfg (sortIndRows df) (j + 1) = (true, "enter") :=
        (stepPos_cases (posRec cfg (sortIndRows df) j).1
          (enterSig cfg (sortIndRows df) (j + 1)) (exitSig (sortIndRows df) (j + 1))).1
          hprev hE
      exact ⟨show (posRec cfg (sortIndRows df) (j + 1)).1 = true by rw [hpr],
        show (posRec cfg (sortIndRows df) (j + 1)).2 = "enter" by rw [hpr]⟩
  · intro hprev hX
    rw [make_recommendations_getD df cfg i hleni]
    cases i with
    | zero =>
      rw [if_pos rfl] at hprev
      exact Bool.noConfusion hprev
    | succ j =>
      rw [if_neg (Nat.succ_ne_zero j), Nat.add_sub_cancel] at hprev
      rw [make_recommendations_getD df cfg j (by omega)] at hprev
      have hpr : posRec cfg (sortIndRows df) (j + 1) = (false, "exit") :=
        (stepPos_cases (posRec cfg (sortIndRows df) j).1
          (enterSig cfg (sortIndRows df) (j + 1)) (exitSig (sortIndRows df) (j + 1))).2.1
          hprev hX
      exact ⟨show (posRec cfg (sortIndRows df) (j + 1)).1 = false by rw [hpr],
        show (posRec cfg (sortIndRows df) (j + 1)).2 = "exit" by rw [hpr]⟩
  · intro hn1 hn2
    rw [make_recommendations_getD df cfg i hleni]
    cases i with
    | zero =>
      rw [if_pos rfl] at hn1 hn2 ⊢
      have hpr : posRec cfg (sortIndRows df) 0 = (false, "hold") :=
        (stepPos_cases false (enterSig cfg (sortIndRows df) 0)
          (exitSig (sortIndRows df) 0)).2.2
          (fun hcon => hn1 ⟨rfl, hcon.2⟩) (fun hcon => Bool.noConfusion hcon.1)
      exact ⟨show (posRec cfg (sortIndRows df) 0).1 = false by rw [hpr],
        show (posRec cfg (sortIndRows df) 0).2 = "hold" by rw [hpr]⟩
    | succ j =>
      rw [if_neg (Nat.succ_ne_zero j), Nat.add_sub_cancel] at hn1 hn2 ⊢
      rw [make_recommendations_getD df cfg j (by omega)] at hn1 hn2 ⊢
      have hpr : posRec cfg (sortIndRows df) (j + 1)
          = ((posRec cfg (sortIndRows df) j).1, "hold") :=
        (stepPos_cases (posRec cfg (sortIndRows df) j).1
          (enterSig cfg (sortIndRows df) (j + 1)) (exitSig (sortIndRows df) (j + 1))).2.2
          hn1 hn2
      exact ⟨show (posRec cfg (sortIndRows df) (j + 1)).1
            = (posRec cfg (sortIndRows df) j).1 by rw [hpr],
        show (posRec cfg (sortIndRows df) (j + 1)).2 = "hold" by rw [hpr]⟩

/-- C3 witness: Scenario D — at row 3 the previous state is flat and the
entry condition fires, so the recommendation is "enter" and the state
becomes in-position. -/
theorem make_recommendations_scan_witness :
    3 < (make_recommendations dfD cfgD).length
    ∧ ((make_recommendations dfD cfgD).getD 3 default).in_position = true
    ∧ ((make_recommendations dfD cfgD).getD 3 default).recommendation = "enter" := by
  refine ⟨hi_dfD, ?_⟩
  have hlen2 : 2 < (sortIndRows dfD).length := by
    rw [sortIndRows_length]; norm_num [dfD]
  have hprev : (if (3 : Nat) = 0 then false
      else ((make_recommendations dfD cfgD).getD (3 - 1) default).in_position) = false := by
    rw [if_neg (by norm_num)]
    rw [show (3 : Nat) - 1 = 2 from rfl, make_recommendations_getD dfD cfgD 2 hlen2]
    show (posRec cfgD (sortIndRows dfD) 2).1 = false
    rw [sortIndRows_dfD]
    exact posRec_dfD_2
  have hE : enterSig cfgD (sortIndRows dfD) 3 = true := by
    rw [sortIndRows_dfD]; exact enterSig_dfD_3
  exact (make_recommendations_scan cfgD dfD 3 hi_dfD).2.2.2.1 hprev hE

end StockLens
